import Mathlib

/-!
Verification of the fossil-jellyfish packaging recipe against its specification.

The repository holds two Python source files:

* `conanfile.py` — a Conan recipe class `FossilJellyfishConan` with lifecycle
  methods `layout`, `generate`, `build`, `source` (defined twice; Python class
  semantics keep only the last binding), `package`, and `package_info`.
* `code/tests/tools/wildcard.py` — a test-source lister built from two
  `glob.glob` calls over a fixed `cases` directory.

This file gives a shallow embedding of both and proves or refutes the frozen
claims about them.  Filesystem directories are modelled as explicit data
(an `Option (List String)` of entry names for the lister, where `none` is a
missing directory; a path-to-contents map for the package output tree), and
each lifecycle method is a Lean function on an explicit orchestrator state.
-/

namespace FossilJellyfish

/-! ## Package identity constants, from the class body of `conanfile.py` -/

/-- Field `name = "fossil_jellyfish"` of the recipe class. -/
def name : String := "fossil_jellyfish"

/-- Field `version = "0.1.4"` of the recipe class. -/
def version : String := "0.1.4"

/-- Field `url = "https://github.com/fossillogic/fossil-jellyfish"` of the recipe class. -/
def url : String := "https://github.com/fossillogic/fossil-jellyfish"

/-! ## String helpers used by the embedding -/

/-- Boolean test that `s` ends with the suffix `suff`, computed on the
underlying character lists. -/
def endsWithS (s suff : String) : Bool := suff.data.isSuffixOf s.data

/-- Boolean test that a file name is hidden (starts with a dot); `glob`
patterns whose components do not start with a dot skip such entries. -/
def isHidden (s : String) : Bool :=
  match s.data with
  | [] => false
  | c :: _ => c == '.'

/-- Lexicographic order test on character lists, comparing code points;
used to express the sortedness the specification asks of the lister. -/
def lexLeChars : List Char → List Char → Bool
  | [], _ => true
  | _ :: _, [] => false
  | a :: as, b :: bs =>
    if a.toNat < b.toNat then true
    else if b.toNat < a.toNat then false
    else lexLeChars as bs

/-- Strip a literal leading pattern from a character list, returning the
remainder when the pattern is a prefix and `none` otherwise. -/
def dropPref : List Char → List Char → Option (List Char)
  | [], s => some s
  | _ :: _, [] => none
  | p :: ps, c :: cs => if p = c then dropPref ps cs else none

/-! ## Test-source lister, from `code/tests/tools/wildcard.py`

The script is `glob.glob ("cases/*.c") + glob.glob ("cases/*.cpp")`, then a
loop printing each element.  A `glob.glob` call with pattern `cases/*<suff>`
matches every non-hidden entry directly inside `cases` whose name ends with
`suff`, returning the matches prefixed with `cases/` in directory-enumeration
order; when the `cases` directory is missing it simply matches nothing and
returns the empty list, raising no error. -/

/-- One `glob.glob` call over the `cases` directory for the pattern with
suffix `suff`.  The directory state is `none` (missing) or `some entries`
(the entry names directly inside `cases`, in enumeration order). -/
def globCases (suff : String) (dir : Option (List String)) : List String :=
  match dir with
  | none => []
  | some entries =>
    (entries.filter (fun n => !(isHidden n) && endsWithS n suff)).map
      (fun n => "cases/" ++ n)

/-- The list bound to `source_files` in `wildcard.py`: the `.c` matches
followed by the `.cpp` matches. -/
def source_files (dir : Option (List String)) : List String :=
  globCases ".c" dir ++ globCases ".cpp" dir

/-- Error taxonomy the specification assigns to the lister. -/
inductive ListerError
  | directoryNotFoundError
deriving DecidableEq

/-- A whole run of the lister script.  The result type admits the
specification's `DirectoryNotFoundError`, but the source raises nothing:
`glob.glob` yields `[]` for a missing directory, so every run succeeds with
the value of `source_files`. -/
def listerRun (dir : Option (List String)) : Except ListerError (List String) :=
  Except.ok (source_files dir)

/-! ## Package output tree and the `package` method of `conanfile.py` -/

/-- A directory tree as a map from path to file contents (`none` = absent). -/
def FS : Type := String → Option String

/-- Apply an update map over a base tree: every file the update writes
overwrites the base copy, paths the update does not touch keep the base
contents.  Whole-file overwrites model both the external install step and
the `copy` helper. -/
def overrideFS (base upd : FS) : FS := fun p =>
  match upd p with
  | some v => some v
  | none => base p

/-- The fixed source header subpath `code/logic/fossil/ai` of the `copy`
call in `package`, with a trailing separator. -/
def srcHeaderDir : String := "code/logic/fossil/ai/"

/-- The destination subpath `include/fossil/ai` inside the package folder,
with a trailing separator. -/
def includeNS : String := "include/fossil/ai/"

/-- The update map produced by
`copy (self, "*.h", src = "code/logic/fossil/ai", dst = .../include/fossil/ai)`:
the destination path `include/fossil/ai/<rel>` receives the contents of
`code/logic/fossil/ai/<rel>` whenever that source file exists and `rel`
matches the header pattern (ends with `.h`). -/
def headerImage (src : FS) : FS := fun dst =>
  match dropPref includeNS.data dst.data with
  | some rel =>
    match (".h" : String).data.isSuffixOf rel with
    | true => src (String.mk (srcHeaderDir.data ++ rel))
    | false => none
  | none => none

/-- The `package` method: first `meson.install ()` writes the external
install image `install` into the output tree, then the `copy` call re-copies
every matching header from the source tree `src`, overwriting. -/
def package (src install out : FS) : FS :=
  overrideFS (overrideFS out install) (headerImage src)

/-! ## Source acquisition, from the two `source` method definitions

`conanfile.py` defines `source` twice in the same class body: the first runs
a shallow clone (`--depth 1`), the second a full clone.  Python class bodies
bind methods sequentially into the class dictionary, so the later binding
silently replaces the earlier one and only the last definition is ever
invoked. -/

/-- Commands run by the first `source` definition (line 38). -/
def sourceDefFirst : List String :=
  ["git clone --branch v" ++ version ++ " --depth 1 " ++ url]

/-- Commands run by the second `source` definition (line 56). -/
def sourceDefSecond : List String :=
  ["git clone --branch v" ++ version ++ " " ++ url]

/-- The successive bindings of the attribute `source` in the class body, in
textual order. -/
def classBodySourceDefs : List (List String) := [sourceDefFirst, sourceDefSecond]

/-- The method actually bound to `source` at runtime — the last binding in
the class body — and hence the commands one invocation of the
source-acquisition operation runs. -/
def sourceMethod : List String := (classBodySourceDefs.getLast?).getD []

/-! ## Orchestrator state and the remaining lifecycle methods -/

/-- The mutable attributes of the recipe instance the methods touch:
`self.folders.source`, `self.folders.build`, `self.cpp_info.libs`,
`self.cpp_info.includedirs`.  `none` means not yet assigned. -/
structure OrchState where
  folders_source : Option String
  folders_build : Option String
  cpp_libs : Option (List String)
  cpp_includedirs : Option (List String)
deriving DecidableEq

/-- A fresh recipe instance: no folder or consumer metadata assigned yet. -/
def initState : OrchState :=
  { folders_source := none, folders_build := none,
    cpp_libs := none, cpp_includedirs := none }

/-- The `layout` method: assigns `self.folders.source = "."` and
`self.folders.build = "builddir"`. -/
def layout (s : OrchState) : OrchState :=
  { s with folders_source := some ".", folders_build := some "builddir" }

/-- The `package_info` method: assigns
`self.cpp_info.libs = ["fossil_jellyfish"]` and
`self.cpp_info.includedirs = ["include"]`. -/
def package_info (s : OrchState) : OrchState :=
  { s with cpp_libs := some ["fossil_jellyfish"],
           cpp_includedirs := some ["include"] }

/-- Opaque external-tool invocations a lifecycle method performs. -/
inductive Action
  | mesonToolchainGenerate
  | mesonConfigure
  | mesonBuild
  | mesonInstall
  | copyHeaderGlob
  | runCommand (cmd : String)
deriving DecidableEq

/-- Error taxonomy the specification assigns to the orchestrator. -/
inductive OrchError
  | sequenceError
  | toolchainGenerationError
  | sourceAcquisitionError
  | buildError
  | packagingError
deriving DecidableEq

/-- Names of the lifecycle steps of the recipe. -/
inductive StepName
  | layoutStep
  | generateStep
  | sourceStep
  | buildStep
  | packageStep
  | packageInfoStep
deriving DecidableEq

/-- One lifecycle method invocation as written in `conanfile.py`: the new
instance state and the external invocations it performs.  The result type
admits the specification's error taxonomy, but no method in the source
inspects prior state or raises any of these errors itself — each one
unconditionally performs its external calls. -/
def runStep : StepName → OrchState → Except OrchError (OrchState × List Action)
  | StepName.layoutStep, s => Except.ok (layout s, [])
  | StepName.generateStep, s => Except.ok (s, [Action.mesonToolchainGenerate])
  | StepName.sourceStep, s => Except.ok (s, sourceMethod.map Action.runCommand)
  | StepName.buildStep, s => Except.ok (s, [Action.mesonConfigure, Action.mesonBuild])
  | StepName.packageStep, s => Except.ok (s, [Action.mesonInstall, Action.copyHeaderGlob])
  | StepName.packageInfoStep, s => Except.ok (package_info s, [])

/-! ## Concrete filesystem fixtures used by witnesses -/

/-- A source tree holding exactly one header under the fixed subpath. -/
def witnessSrcFS : FS := fun p =>
  if p = "code/logic/fossil/ai/jellyfish.h" then some "header-contents" else none

/-- The empty tree: also the install image of an external install step that
installs zero files. -/
def emptyFS : FS := fun _ => none

/-! ## Helper lemmas -/

/-- Appending on the left preserves a string suffix. -/
theorem endsWithS_append (pre s suff : String) (h : endsWithS s suff = true) :
    endsWithS (pre ++ s) suff = true := by
  unfold endsWithS at h ⊢
  rw [List.isSuffixOf_iff_suffix] at h ⊢
  rw [String.data_append]
  exact h.trans (List.suffix_append _ _)

/-- A list ending in a one-element suffix has that element as its last. -/
theorem getLast_of_suffix {l s : List Char} {a : Char} (h : (s ++ [a]) <:+ l) :
    l.getLast? = some a := by
  obtain ⟨t, ht⟩ := h
  rw [← ht, ← List.append_assoc]
  exact List.getLast?_concat _

/-- No string ends with both of the suffixes `.c` and `.cpp`. -/
theorem not_endsWith_c_and_cpp (p : String) (h1 : endsWithS p ".c" = true)
    (h2 : endsWithS p ".cpp" = true) : False := by
  unfold endsWithS at h1 h2
  rw [List.isSuffixOf_iff_suffix] at h1 h2
  have e1 : p.data.getLast? = some 'c' :=
    getLast_of_suffix (s := ['.']) (a := 'c') h1
  have e2 : p.data.getLast? = some 'p' :=
    getLast_of_suffix (s := ['.', 'c', 'p']) (a := 'p') h2
  rw [e1] at e2
  exact absurd (Option.some.inj e2) (by decide)

/-- Every path produced by one glob call ends with that call's suffix. -/
theorem endsWithS_of_mem_globCases (suff : String) (dir : Option (List String))
    (p : String) (hp : p ∈ globCases suff dir) : endsWithS p suff = true := by
  match dir with
  | none => simp [globCases] at hp
  | some entries =>
    simp only [globCases, List.mem_map, List.mem_filter] at hp
    obtain ⟨n, ⟨_, hmatch⟩, rfl⟩ := hp
    have := (Bool.and_eq_true _ _).mp hmatch
    exact endsWithS_append _ _ _ this.2

/-- Stripping a literal pattern from itself followed by a remainder yields
exactly the remainder. -/
theorem dropPref_append (p r : List Char) : dropPref p (p ++ r) = some r := by
  induction p with
  | nil => rfl
  | cons a as ih => simp [dropPref, ih]

/-! ## Claim theorems -/

/-- C1: at runtime exactly one external fetch (git clone) command is issued
by an invocation of the source-acquisition operation, with one consistent
flag set — the second class-body binding of `source` shadows the first, so
only the full-clone command ever runs and the fetch is never performed twice
with conflicting flags within a single run. -/
theorem c1_single_fetch :
    sourceMethod.length = 1 ∧
    sourceMethod =
      ["git clone --branch v0.1.4 https://github.com/fossillogic/fossil-jellyfish"] ∧
    (runStep StepName.sourceStep initState).toOption =
      some (initState,
        [Action.runCommand
          "git clone --branch v0.1.4 https://github.com/fossillogic/fossil-jellyfish"]) := by
  refine ⟨rfl, by decide, by decide⟩

/-- C5 counterexample: on a missing `cases` directory the lister run
succeeds with the empty list — `glob.glob` matches nothing and raises no
error — so the lister does not fail with `DirectoryNotFoundError` when the
directory does not exist. -/
theorem c5_counterexample : listerRun none = Except.ok [] := rfl

/-- C5 amended: the lister has no failure mode at all — every run, the
missing-directory case included, returns a result, and a missing `cases`
directory yields the empty sequence instead of `DirectoryNotFoundError`. -/
theorem c5_amended :
    (∀ dir : Option (List String), ∃ xs, listerRun dir = Except.ok xs) ∧
    listerRun none = Except.ok [] :=
  ⟨fun dir => ⟨source_files dir, rfl⟩, rfl⟩

/-- C6 counterexample: the lister run on an existing empty `cases`
directory and the run on a missing `cases` directory produce the very same
result, so the two cases are conflated, contradicting the claim that they
are never conflated. -/
theorem c6_counterexample :
    listerRun (some []) = Except.ok [] ∧ listerRun (some []) = listerRun none :=
  ⟨rfl, rfl⟩

/-- C6 amended: an existing but empty `cases` directory yields the empty
sequence without any error; however the missing-directory case yields the
identical result, so the empty and missing cases are indistinguishable. -/
theorem c6_amended :
    listerRun (some []) = Except.ok [] ∧ listerRun none = listerRun (some []) :=
  ⟨rfl, rfl⟩

/-- C7: `package_info` is pure and deterministic in the exported consumer
metadata — from every prior instance state it sets libs to the singleton of
`PackageDescriptor.name` and includedirs to `include`, and two calls yield
identical output. -/
theorem c7_package_info_pure :
    ∀ s t : OrchState,
      (package_info s).cpp_libs = some [name] ∧
      (package_info s).cpp_includedirs = some ["include"] ∧
      (package_info s).cpp_libs = (package_info t).cpp_libs ∧
      (package_info s).cpp_includedirs = (package_info t).cpp_includedirs :=
  fun _ _ => ⟨rfl, rfl, rfl, rfl⟩

/-- C8: `layout` always sets the source folder to `.` and the build folder
to `builddir`, for every prior state of the orchestrator, and has no
failure mode (it is a total function, and the lifecycle evaluator returns
success on the layout step from every state). -/
theorem c8_layout_fixed :
    ∀ s : OrchState,
      (layout s).folders_source = some "." ∧
      (layout s).folders_build = some "builddir" ∧
      runStep StepName.layoutStep s = Except.ok (layout s, []) :=
  fun _ => ⟨rfl, rfl, rfl⟩

/-- C4 counterexample: invoking the build step on a fresh instance — before
source acquisition (or any other step) has run — succeeds, returning the
meson configure-and-build invocations; it does not fail with
`SequenceError`, contradicting the claim. -/
theorem c4_counterexample :
    runStep StepName.buildStep initState =
      Except.ok (initState, [Action.mesonConfigure, Action.mesonBuild]) := rfl

/-- C4 amended: the recipe performs no sequence enforcement at all — every
lifecycle step invoked from every prior state succeeds without
`SequenceError`; step ordering is left entirely to the external packaging
driver. -/
theorem c4_amended :
    ∀ (n : StepName) (s : OrchState), ∃ out, runStep n s = Except.ok out := by
  intro n s
  cases n <;> exact ⟨_, rfl⟩

/-- C9: `package` is idempotent — for every fixed source tree, fixed
external install image and prior output tree, running the package step twice
yields an output tree identical to running it once, with no duplicate or
stale files (every copy is a whole-file overwrite at a fixed path). -/
theorem c9_package_idempotent :
    ∀ src install out : FS,
      package src install (package src install out) = package src install out := by
  intro src install out
  funext p
  unfold package overrideFS
  cases headerImage src p <;> cases install p <;> rfl

/-- C2: after `package` completes, every `.h` file present under the fixed
source subpath `code/logic/fossil/ai` has a copy under
`include/fossil/ai` in the output tree, whatever the external install step
installed (zero headers included); moreover every path a bare external
install would populate is still populated, so the result is a superset of
the bare install. -/
theorem c2_header_copy :
    (∀ (src install out : FS) (rel c : String),
        src (srcHeaderDir ++ rel) = some c →
        endsWithS rel ".h" = true →
        package src install out (includeNS ++ rel) = some c) ∧
    (∀ (src install out : FS) (p v : String),
        overrideFS out install p = some v →
        ∃ w, package src install out p = some w) := by
  constructor
  · intro src install out rel c hsrc hsuf
    have hdrop : dropPref includeNS.data ((includeNS ++ rel)).data = some rel.data := by
      rw [String.data_append]
      exact dropPref_append _ _
    have hmk : String.mk (srcHeaderDir.data ++ rel.data) = srcHeaderDir ++ rel := rfl
    have hs : (".h" : String).data.isSuffixOf rel.data = true := hsuf
    have himg : headerImage src (includeNS ++ rel) = some c := by
      simp only [headerImage, hdrop, hs]
      rw [hmk]
      exact hsrc
    unfold package overrideFS
    rw [himg]
  · intro src install out p v hover
    unfold package overrideFS
    unfold overrideFS at hover
    cases himg : headerImage src p with
    | some w => exact ⟨w, rfl⟩
    | none => exact ⟨v, hover⟩

/-- Witness for C2: a source tree holding the single header `jellyfish.h`
under the fixed subpath, an external install that installs zero files, and
an empty prior output; the hypotheses hold and the header lands at
`include/fossil/ai/jellyfish.h`. -/
theorem c2_header_copy_witness :
    witnessSrcFS (srcHeaderDir ++ "jellyfish.h") = some "header-contents" ∧
    endsWithS "jellyfish.h" ".h" = true ∧
    package witnessSrcFS emptyFS emptyFS (includeNS ++ "jellyfish.h") =
      some "header-contents" :=
  ⟨by decide, by decide,
    c2_header_copy.1 witnessSrcFS emptyFS emptyFS "jellyfish.h" "header-contents"
      (by decide) (by decide)⟩

/-- Positional separation in an appended list: when every element of the
first part satisfies P, every element of the second part satisfies Q, and no
element satisfies both, a P-position strictly precedes every Q-position. -/
theorem index_lt_of_append {α : Type} (L1 L2 : List α) (P Q : α → Prop)
    (h1 : ∀ x ∈ L1, P x) (h2 : ∀ x ∈ L2, Q x)
    (hPQ : ∀ x, P x → Q x → False)
    (i j : Nat) (hi : i < (L1 ++ L2).length) (hj : j < (L1 ++ L2).length)
    (hPi : P ((L1 ++ L2).get ⟨i, hi⟩)) (hQj : Q ((L1 ++ L2).get ⟨j, hj⟩)) :
    i < j := by
  have hlen : (L1 ++ L2).length = L1.length + L2.length := List.length_append _ _
  have hi1 : i < L1.length := by
    by_contra hcon
    have hle : L1.length ≤ i := Nat.le_of_not_lt hcon
    have hmem : (L1 ++ L2).get ⟨i, hi⟩ ∈ L2 := by
      rw [List.get_eq_getElem, List.getElem_append_right hle]
      exact List.getElem_mem _
    exact hPQ _ hPi (h2 _ hmem)
  have hj1 : ¬ j < L1.length := by
    intro hcon
    have hmem : (L1 ++ L2).get ⟨j, hj⟩ ∈ L1 := by
      rw [List.get_eq_getElem, List.getElem_append_left hcon]
      exact List.getElem_mem _
    exact hPQ _ (h1 _ hmem) hQj
  omega

/-- C3 counterexample: for the directory enumeration holding `z.c` then
`a.cpp`, the lister returns the `.c` match before the `.cpp` match, and that
output is not in lexicographically sorted order — its first element does not
lexicographically precede its second. -/
theorem c3_counterexample :
    source_files (some ["z.c", "a.cpp"]) = ["cases/z.c", "cases/a.cpp"] ∧
    lexLeChars ("cases/z.c" : String).data ("cases/a.cpp" : String).data = false := by
  decide

/-- C3 amended: the lister returns exactly the paths `cases/<n>` of the
non-hidden entries directly inside `cases` whose names end in `.c` or
`.cpp` (no recursion, other suffixes excluded) — but in glob order, the
`.c` matches followed by the `.cpp` matches each in enumeration order,
rather than globally sorted; for a directory enumerating `a.c`, `b.cpp`,
`c.txt`, `sub` it returns exactly the two paths of the claim's example. -/
theorem c3_amended :
    (∀ (entries : List String) (p : String),
        p ∈ source_files (some entries) ↔
          ∃ n, n ∈ entries ∧ isHidden n = false ∧
            (endsWithS n ".c" = true ∨ endsWithS n ".cpp" = true) ∧
            p = "cases/" ++ n) ∧
    source_files (some ["a.c", "b.cpp", "c.txt", "sub"]) =
      ["cases/a.c", "cases/b.cpp"] := by
  constructor
  · intro entries p
    simp only [source_files, globCases, List.mem_append, List.mem_map,
      List.mem_filter, Bool.and_eq_true, Bool.not_eq_true']
    constructor
    · rintro (⟨n, ⟨hn, hh, hc⟩, rfl⟩ | ⟨n, ⟨hn, hh, hc⟩, rfl⟩)
      · exact ⟨n, hn, hh, Or.inl hc, rfl⟩
      · exact ⟨n, hn, hh, Or.inr hc, rfl⟩
    · rintro ⟨n, hn, hh, hc | hc, rfl⟩
      · exact Or.inl ⟨n, ⟨hn, hh, hc⟩, rfl⟩
      · exact Or.inr ⟨n, ⟨hn, hh, hc⟩, rfl⟩
  · decide

/-- C10: in the lister's output every path ending in `.c` appears before
every path ending in `.cpp`, for every directory enumeration, because the
result is the concatenation of the `.c` matches followed by the `.cpp`
matches. -/
theorem c10_c_before_cpp (entries : List String) (i j : Nat)
    (hi : i < (source_files (some entries)).length)
    (hj : j < (source_files (some entries)).length)
    (hci : endsWithS ((source_files (some entries)).get ⟨i, hi⟩) ".c" = true)
    (hcj : endsWithS ((source_files (some entries)).get ⟨j, hj⟩) ".cpp" = true) :
    i < j := by
  exact index_lt_of_append (globCases ".c" (some entries))
    (globCases ".cpp" (some entries))
    (fun x => endsWithS x ".c" = true) (fun x => endsWithS x ".cpp" = true)
    (endsWithS_of_mem_globCases ".c" (some entries))
    (endsWithS_of_mem_globCases ".cpp" (some entries))
    not_endsWith_c_and_cpp i j hi hj hci hcj

/-- Witness for C10: the enumeration `b.cpp`, `a.c` puts the `.c` match at
position 0 and the `.cpp` match at position 1, and the theorem applies. -/
theorem c10_c_before_cpp_witness :
    source_files (some ["b.cpp", "a.c"]) = ["cases/a.c", "cases/b.cpp"] ∧
    (0 : Nat) < 1 :=
  ⟨by decide,
    c10_c_before_cpp ["b.cpp", "a.c"] 0 1 (by decide) (by decide)
      (by decide) (by decide)⟩

end FossilJellyfish
